import Mathlib

/-!
Verification development for the outline-to-SVG-path conversion of
`font_to_svg.hpp` (namespace `font2svg`).

Embedding conventions:

* `FT_Vector` (integer `FT_Pos` coordinates) becomes `FTVector` with `Int`
  fields; the `char` tags become `Nat` (`tag & 1` is modelled as `tag % 2`);
  the `short` contour end indices become `Int`.
* C++ `double` values are modelled as exact rationals `ℚ`.  The conversion
  `int x = (double)…` truncates toward zero and is modelled by `truncQ`;
  C++ `int` division `/ 2` truncates toward zero and is modelled by
  `Int.tdiv`.
* The `svg` stringstream of `do_outline` receives, in order, `M`-, `Q`-,
  `L`- and `Z`-fragments; the embedding records that stream as a
  `List PathCmd` with exact rational coordinates (the textual rendering of
  the numbers is not modelled).  The two early-return comment strings
  ("font had 0 points" / "font had 0 contours") are modelled by dedicated
  constructors of `SvgResult`, distinct from any path.
* Out-of-range vector indexing is undefined behaviour in the source
  (`operator[]`); the embedding totalises it with a default element via
  `List.getD` and theorems about full runs carry the well-formedness
  hypotheses that keep every access in range.
-/

namespace FontToSvg

/-- Model of `FT_Vector`: a point of the glyph outline, with integer
(`FT_Pos`) coordinates. -/
structure FTVector where
  x : Int
  y : Int
deriving DecidableEq, Repr, Inhabited

/-- Model of `struct Point2D` (font_to_svg.hpp:115): a point with `double`
coordinates, modelled as exact rationals. -/
structure Point2D where
  x : ℚ
  y : ℚ
deriving DecidableEq, Repr, Inhabited

/-- Truncation of a rational toward zero: the meaning of the C++
conversion from `double` to `int` (used at font_to_svg.hpp:211-216). -/
def truncQ (q : ℚ) : Int :=
  if 0 ≤ q then ⌊q⌋ else ⌈q⌉

/-- Model of `quadraticBezier` (font_to_svg.hpp:122-133): the interpolated
point of the quadratic Bezier through `p0, p1, p2` at parameter `t`. -/
def quadraticBezier (p0 p1 p2 : Point2D) (t : ℚ := 1/100) : Point2D :=
  { x := (1 - t)^2 * p0.x + (1 - t) * 2 * t * p1.x + t * t * p2.x
    y := (1 - t)^2 * p0.y + (1 - t) * 2 * t * p1.y + t * t * p2.y }

/-- Model of `fullQuadraticBezier` (font_to_svg.hpp:135-142).  The source
loop `for (double i = 0; i < 1.0; i += increment)` accumulates the
parameter; over exact rationals the `k`-th parameter value is
`k * increment` and the loop body runs exactly for those `k` with
`k * increment < 1`, i.e. for `k < ⌈1/increment⌉` when `increment > 0`.
For `increment ≤ 0` the source loop never terminates; that divergence has
no counterpart in a total model and the function returns `[]` there (no
claim depends on a non-positive increment). -/
def fullQuadraticBezier (p0 p1 p2 : Point2D) (increment : ℚ := 1/10) :
    List Point2D :=
  if 0 < increment then
    (List.range (1 / increment).ceil.toNat).map fun (k : Nat) =>
      quadraticBezier p0 p1 p2 ((k : ℚ) * increment)
  else []

/-- One command of the SVG path `d` stream produced by `do_outline`. -/
inductive PathCmd where
  | moveTo (x y : ℚ)
  | lineTo (x y : ℚ)
  | quadTo (cx cy x y : ℚ)
  | closePath
deriving DecidableEq, Repr

/-- Model of `svgQuadraticBezier` (font_to_svg.hpp:155-161): one `L`
fragment per sample point, coordinates emitted verbatim (no truncation). -/
def svgQuadraticBezier (quadBezier : List Point2D) : List PathCmd :=
  quadBezier.map fun p => PathCmd.lineTo p.x p.y

/-- Result of `do_outline`: either one of the two early-return comment
markers (font_to_svg.hpp:175-176), which contain no path data, or the
actual path stream. -/
inductive SvgResult where
  | zeroPoints
  | zeroContours
  | path (cmds : List PathCmd)
deriving DecidableEq, Repr

/-- Path commands carried by a result; the two comment markers carry
none. -/
def SvgResult.cmds : SvgResult → List PathCmd
  | SvgResult.path l => l
  | _ => []

/-- Totalised vector indexing for points (source: `points[i]`,
out-of-range is UB). -/
def ptAt (points : List FTVector) (i : Int) : FTVector :=
  points.getD i.toNat default

/-- Totalised vector indexing for tags (source: `tags[i]`). -/
def tagAt (tags : List Nat) (i : Int) : Nat :=
  tags.getD i.toNat 0

/-- The if/else-if command-emission chain of the loop body
(font_to_svg.hpp:247-274), after the two-consecutive-control-points
adjustment has (possibly) replaced `x`, `y` and `this_isctl`.  Arguments
are the already-truncated integer coordinates and the three control
flags. -/
def do_outline_emit (x y nx ny nnx nny : Int)
    (this_isctl next_isctl nextnext_isctl : Bool)
    (generateBezierStatements : Bool) : List PathCmd :=
  if !this_isctl && next_isctl && !nextnext_isctl then
    if generateBezierStatements then
      [PathCmd.quadTo (nx : ℚ) (ny : ℚ) (nnx : ℚ) (nny : ℚ)]
    else
      svgQuadraticBezier
        (fullQuadraticBezier ⟨(x : ℚ), (y : ℚ)⟩ ⟨(nx : ℚ), (ny : ℚ)⟩
          ⟨(nnx : ℚ), (nny : ℚ)⟩)
  else if !this_isctl && next_isctl && nextnext_isctl then
    let nnx2 := (nx + nnx).tdiv 2
    let nny2 := (ny + nny).tdiv 2
    if generateBezierStatements then
      [PathCmd.quadTo (nx : ℚ) (ny : ℚ) (nnx2 : ℚ) (nny2 : ℚ)]
    else
      svgQuadraticBezier
        (fullQuadraticBezier ⟨(x : ℚ), (y : ℚ)⟩ ⟨(nx : ℚ), (ny : ℚ)⟩
          ⟨(nnx2 : ℚ), (nny2 : ℚ)⟩)
  else if !this_isctl && !next_isctl then
    [PathCmd.lineTo (nx : ℚ) (ny : ℚ)]
  else
    []

/-- One iteration of the inner loop of `do_outline`
(font_to_svg.hpp:207-275) given the three resolved points and tags.
`jzero` is the test `j == 0` guarding the corrective `MoveTo`
(font_to_svg.hpp:241-244). -/
def do_outline_step (pthis pnext pnextnext : FTVector)
    (ttag ntag nntag : Nat) (offsetX offsetY : ℚ)
    (generateBezierStatements : Bool) (jzero : Bool) : List PathCmd :=
  let x := truncQ ((pthis.x : ℚ) + offsetX)
  let y := truncQ ((pthis.y : ℚ) + offsetY)
  let nx := truncQ ((pnext.x : ℚ) + offsetX)
  let ny := truncQ ((pnext.y : ℚ) + offsetY)
  let nnx := truncQ ((pnextnext.x : ℚ) + offsetX)
  let nny := truncQ ((pnextnext.y : ℚ) + offsetY)
  let this_isctl := !(ttag % 2 == 1)
  let next_isctl := !(ntag % 2 == 1)
  let nextnext_isctl := !(nntag % 2 == 1)
  if this_isctl && next_isctl then
    let mx := (x + nx).tdiv 2
    let my := (y + ny).tdiv 2
    (if jzero then [PathCmd.moveTo (mx : ℚ) (my : ℚ)] else [])
      ++ do_outline_emit mx my nx ny nnx nny false next_isctl nextnext_isctl
          generateBezierStatements
  else
    do_outline_emit x y nx ny nnx nny this_isctl next_isctl nextnext_isctl
      generateBezierStatements

/-- The inner `for (j = 0; j < npts; j++)` loop of `do_outline` for one
contour with start offset `offset` and `npts` points
(font_to_svg.hpp:207-275).  Index arithmetic `j % npts + offset` is done
in `Int` exactly as in the source (`j`, `npts`, `offset` are C++ `int`s;
for `0 ≤ j` and `0 < npts` the C++ `%` agrees with `Int.emod`). -/
def do_outline_contour (points : List FTVector) (tags : List Nat)
    (offset npts : Int) (offsetX offsetY : ℚ)
    (generateBezierStatements : Bool) : List PathCmd :=
  ((List.range npts.toNat).map fun (j : Nat) =>
    do_outline_step
      (ptAt points ((j : Int) % npts + offset))
      (ptAt points (((j : Int) + 1) % npts + offset))
      (ptAt points (((j : Int) + 2) % npts + offset))
      (tagAt tags ((j : Int) % npts + offset))
      (tagAt tags (((j : Int) + 1) % npts + offset))
      (tagAt tags (((j : Int) + 2) % npts + offset))
      offsetX offsetY generateBezierStatements (j == 0)).flatten

/-- The outer contour loop of `do_outline` (font_to_svg.hpp:197-278),
threading `contour_starti` through the contour end indices.  Each contour
contributes its initial `MoveTo` (font_to_svg.hpp:205, emitted as the raw
`double` sum, NOT truncated), the inner-loop commands, and a terminating
`Z` (font_to_svg.hpp:277). -/
def do_outline_contours (points : List FTVector) (tags : List Nat)
    (offsetX offsetY : ℚ) (generateBezierStatements : Bool) :
    List Int → Int → List PathCmd
  | [], _ => []
  | endi :: rest, starti =>
    (PathCmd.moveTo (((ptAt points starti).x : ℚ) + offsetX)
        (((ptAt points starti).y : ℚ) + offsetY)
      :: (do_outline_contour points tags starti (endi - starti + 1)
            offsetX offsetY generateBezierStatements
          ++ [PathCmd.closePath]))
      ++ do_outline_contours points tags offsetX offsetY
          generateBezierStatements rest (endi + 1)

/-- Model of `do_outline` (font_to_svg.hpp:171-282): the returned string,
at the level of path commands and early-return markers. -/
def do_outline (points : List FTVector) (tags : List Nat)
    (contours : List Int) (offsetX offsetY : ℚ)
    (generateBezierStatements : Bool := true) : SvgResult :=
  if points.length = 0 then SvgResult.zeroPoints
  else if contours.length = 0 then SvgResult.zeroContours
  else SvgResult.path
    (do_outline_contours points tags offsetX offsetY
      generateBezierStatements contours 0)

/-- Writes performed by `do_outline` on `std::cout`, abstracted as events:
line 174 writes the marker `"<!-- do outline -->\n"` unconditionally on
every call, and line 280 additionally dumps the debug trace when the
process-global flag `hasDebug` (font_to_svg.hpp:59) is set.  The trace
text itself is irrelevant to every claim and is abstracted as a token;
the local `debug` stringstream never flows into the returned `svg`
stream. -/
inductive CoutEvent where
  | marker
  | debugDump
deriving DecidableEq, Repr

/-- The sequence of `std::cout` writes of one `do_outline` call as a
function of the global `hasDebug` flag. -/
def do_outlineCoutWrites (hasDebugFlag : Bool) : List CoutEvent :=
  CoutEvent.marker :: (if hasDebugFlag then [CoutEvent.debugDump] else [])

/-- Shift every coordinate of a path command by `(dx, dy)`. -/
def shiftCmd (dx dy : ℚ) : PathCmd → PathCmd
  | PathCmd.moveTo a b => PathCmd.moveTo (a + dx) (b + dy)
  | PathCmd.lineTo a b => PathCmd.lineTo (a + dx) (b + dy)
  | PathCmd.quadTo cx cy a b =>
      PathCmd.quadTo (cx + dx) (cy + dy) (a + dx) (b + dy)
  | PathCmd.closePath => PathCmd.closePath

/-- Map a command transformation over a result's path (markers are
unchanged). -/
def SvgResult.mapCmds (f : PathCmd → PathCmd) : SvgResult → SvgResult
  | SvgResult.path l => SvgResult.path (l.map f)
  | r => r

/-- Recognise a `MoveTo` command. -/
def PathCmd.isMoveTo : PathCmd → Bool
  | PathCmd.moveTo _ _ => true
  | _ => false

/-- Recognise a `QuadCurveTo` command. -/
def PathCmd.isQuadTo : PathCmd → Bool
  | PathCmd.quadTo _ _ _ _ => true
  | _ => false

/-- Shape of the coordinates a loop iteration may emit in curve-command
mode, given the three source points and the offsets: the corrective
midpoint `MoveTo`, one of the two `QuadCurveTo` forms, or the advancing
`LineTo` — every coordinate an integer truncation `truncQ(point +
offset)` or a truncating integer average of two such truncations. -/
def loopCoordShape (pthis pnext pnextnext : FTVector) (ox oy : ℚ)
    (c : PathCmd) : Prop :=
  c = PathCmd.moveTo
      (((truncQ ((pthis.x : ℚ) + ox) + truncQ ((pnext.x : ℚ) + ox)).tdiv 2 : ℤ) : ℚ)
      (((truncQ ((pthis.y : ℚ) + oy) + truncQ ((pnext.y : ℚ) + oy)).tdiv 2 : ℤ) : ℚ) ∨
  c = PathCmd.quadTo ((truncQ ((pnext.x : ℚ) + ox) : ℤ) : ℚ)
      ((truncQ ((pnext.y : ℚ) + oy) : ℤ) : ℚ)
      ((truncQ ((pnextnext.x : ℚ) + ox) : ℤ) : ℚ)
      ((truncQ ((pnextnext.y : ℚ) + oy) : ℤ) : ℚ) ∨
  c = PathCmd.quadTo ((truncQ ((pnext.x : ℚ) + ox) : ℤ) : ℚ)
      ((truncQ ((pnext.y : ℚ) + oy) : ℤ) : ℚ)
      (((truncQ ((pnext.x : ℚ) + ox) + truncQ ((pnextnext.x : ℚ) + ox)).tdiv 2 : ℤ) : ℚ)
      (((truncQ ((pnext.y : ℚ) + oy) + truncQ ((pnextnext.y : ℚ) + oy)).tdiv 2 : ℤ) : ℚ) ∨
  c = PathCmd.lineTo ((truncQ ((pnext.x : ℚ) + ox) : ℤ) : ℚ)
      ((truncQ ((pnext.y : ℚ) + oy) : ℤ) : ℚ)

/-- The final value of `contour_starti` after the outer loop processes
the contour end indices in `A`, starting from `s`: each contour sets it
to its end index plus one (font_to_svg.hpp:276). -/
def contoursEnd (s : Int) (A : List Int) : Int :=
  A.foldl (fun _ e => e + 1) s

/-- Well-formed outline in the sense of the data-model invariants (spec
section 3): nonempty point and contour lists, one tag per point,
contour end indices strictly increasing, in range, and the last one
equal to `points.size() - 1`. -/
abbrev wfOutline (points : List FTVector) (tags : List Nat)
    (contours : List Int) : Prop :=
  points ≠ [] ∧ tags.length = points.length ∧ contours ≠ [] ∧
    List.Chain' (· < ·) contours ∧
    (∀ e ∈ contours, 0 ≤ e ∧ e < (points.length : Int)) ∧
    contours.getLast? = some ((points.length : Int) - 1)

end FontToSvg

namespace FontToSvg

/-! ## Helper lemmas -/

theorem flatten_map_singleton {α β : Type _} (l : List α) (f : α → β) :
    (l.map fun x => [f x]).flatten = l.map f := by
  induction l with
  | nil => rfl
  | cons a l ih => simp [ih]

/-- A step with two on-curve points at `this` and `next` emits exactly the
closing/advancing line to `next`. -/
theorem do_outline_step_on_on (pthis pnext pnextnext : FTVector)
    (ttag ntag nntag : Nat) (ox oy : ℚ) (gen jz : Bool)
    (ht : ttag % 2 = 1) (hn : ntag % 2 = 1) :
    do_outline_step pthis pnext pnextnext ttag ntag nntag ox oy gen jz =
      [PathCmd.lineTo ((truncQ ((pnext.x : ℚ) + ox) : ℤ) : ℚ)
        ((truncQ ((pnext.y : ℚ) + oy) : ℤ) : ℚ)] := by
  simp [do_outline_step, do_outline_emit, ht, hn]

/-! ## C6: empty input -/

/-- C6: for every input with zero points or zero contours, `do_outline`
returns one of the two explanatory no-op markers (never an error) and no
path commands are produced. -/
theorem c6_empty_input (points : List FTVector) (tags : List Nat)
    (contours : List Int) (ox oy : ℚ) (gen : Bool)
    (h : points = [] ∨ contours = []) :
    (do_outline points tags contours ox oy gen = SvgResult.zeroPoints ∨
      do_outline points tags contours ox oy gen = SvgResult.zeroContours) ∧
    (do_outline points tags contours ox oy gen).cmds = [] := by
  rcases h with h | h
  · subst h
    simp [do_outline, SvgResult.cmds]
  · subst h
    by_cases hp : points.length = 0
    · simp [do_outline, hp, SvgResult.cmds]
    · simp [do_outline, hp, SvgResult.cmds]

/-- Witness for C6 at the concrete empty input. -/
theorem c6_empty_input_witness :
    (do_outline [] [] [] 0 0 true = SvgResult.zeroPoints ∨
      do_outline [] [] [] 0 0 true = SvgResult.zeroContours) ∧
    (do_outline [] [] [] 0 0 true).cmds = [] :=
  c6_empty_input [] [] [] 0 0 true (Or.inl rfl)

/-! ## C10: purity -/

/-- C10 counterexample: `do_outline` does perform I/O and does read
process-global state: every call writes the marker comment to `std::cout`
(font_to_svg.hpp:174), and the write sequence depends on the global
`hasDebug` flag (font_to_svg.hpp:280). -/
theorem c10_counterexample :
    do_outlineCoutWrites false ≠ [] ∧
    do_outlineCoutWrites true ≠ do_outlineCoutWrites false := by
  constructor <;> decide

/-- C10 (amended): the string returned by `do_outline` is a deterministic
pure function of its six arguments: two calls with equal points, tags,
contours, offsets and mode flag return equal results (the `std::cout`
marker/debug writes and the read of the global `hasDebug` flag never
influence the returned `svg` stream, whose construction is disjoint from
the `debug` stream). -/
theorem c10_amended_determinism (points points' : List FTVector)
    (tags tags' : List Nat) (contours contours' : List Int)
    (ox ox' oy oy' : ℚ) (gen gen' : Bool)
    (hp : points = points') (ht : tags = tags') (hc : contours = contours')
    (hx : ox = ox') (hy : oy = oy') (hg : gen = gen') :
    do_outline points tags contours ox oy gen =
      do_outline points' tags' contours' ox' oy' gen' := by
  subst hp; subst ht; subst hc; subst hx; subst hy; subst hg; rfl

/-- Witness for C10 at a concrete input. -/
theorem c10_amended_determinism_witness :
    do_outline [⟨1, 2⟩] [1] [0] 0 0 true = do_outline [⟨1, 2⟩] [1] [0] 0 0 true :=
  c10_amended_determinism [⟨1, 2⟩] [⟨1, 2⟩] [1] [1] [0] [0] 0 0 0 0 true true
    rfl rfl rfl rfl rfl rfl

/-! ## Step classification helper lemmas (shared) -/

/-- Loop iteration with `this` on-curve, `next` off-curve, `nextnext`
on-curve: a quadratic with control `next` and end `nextnext`, or its
tessellation (source branch font_to_svg.hpp:247-255). -/
theorem do_outline_step_on_off_on (pthis pnext pnextnext : FTVector)
    (ttag ntag nntag : Nat) (ox oy : ℚ) (gen jz : Bool)
    (ht : ttag % 2 = 1) (hn : ntag % 2 = 0) (hnn : nntag % 2 = 1) :
    do_outline_step pthis pnext pnextnext ttag ntag nntag ox oy gen jz =
      if gen then
        [PathCmd.quadTo ((truncQ ((pnext.x : ℚ) + ox) : ℤ) : ℚ)
          ((truncQ ((pnext.y : ℚ) + oy) : ℤ) : ℚ)
          ((truncQ ((pnextnext.x : ℚ) + ox) : ℤ) : ℚ)
          ((truncQ ((pnextnext.y : ℚ) + oy) : ℤ) : ℚ)]
      else
        svgQuadraticBezier (fullQuadraticBezier
          ⟨((truncQ ((pthis.x : ℚ) + ox) : ℤ) : ℚ),
            ((truncQ ((pthis.y : ℚ) + oy) : ℤ) : ℚ)⟩
          ⟨((truncQ ((pnext.x : ℚ) + ox) : ℤ) : ℚ),
            ((truncQ ((pnext.y : ℚ) + oy) : ℤ) : ℚ)⟩
          ⟨((truncQ ((pnextnext.x : ℚ) + ox) : ℤ) : ℚ),
            ((truncQ ((pnextnext.y : ℚ) + oy) : ℤ) : ℚ)⟩ (1/10)) := by
  simp [do_outline_step, do_outline_emit, ht, hn, hnn]

/-- Loop iteration with `this` on-curve and `next`, `nextnext` both
off-curve: the end point is synthesized as the truncating integer midpoint
of `next` and `nextnext` (source branch font_to_svg.hpp:256-268). -/
theorem do_outline_step_on_off_off (pthis pnext pnextnext : FTVector)
    (ttag ntag nntag : Nat) (ox oy : ℚ) (gen jz : Bool)
    (ht : ttag % 2 = 1) (hn : ntag % 2 = 0) (hnn : nntag % 2 = 0) :
    do_outline_step pthis pnext pnextnext ttag ntag nntag ox oy gen jz =
      if gen then
        [PathCmd.quadTo ((truncQ ((pnext.x : ℚ) + ox) : ℤ) : ℚ)
          ((truncQ ((pnext.y : ℚ) + oy) : ℤ) : ℚ)
          (((truncQ ((pnext.x : ℚ) + ox) + truncQ ((pnextnext.x : ℚ) + ox)).tdiv 2 : ℤ) : ℚ)
          (((truncQ ((pnext.y : ℚ) + oy) + truncQ ((pnextnext.y : ℚ) + oy)).tdiv 2 : ℤ) : ℚ)]
      else
        svgQuadraticBezier (fullQuadraticBezier
          ⟨((truncQ ((pthis.x : ℚ) + ox) : ℤ) : ℚ),
            ((truncQ ((pthis.y : ℚ) + oy) : ℤ) : ℚ)⟩
          ⟨((truncQ ((pnext.x : ℚ) + ox) : ℤ) : ℚ),
            ((truncQ ((pnext.y : ℚ) + oy) : ℤ) : ℚ)⟩
          ⟨(((truncQ ((pnext.x : ℚ) + ox) + truncQ ((pnextnext.x : ℚ) + ox)).tdiv 2 : ℤ) : ℚ),
            (((truncQ ((pnext.y : ℚ) + oy) + truncQ ((pnextnext.y : ℚ) + oy)).tdiv 2 : ℤ) : ℚ)⟩
          (1/10)) := by
  simp [do_outline_step, do_outline_emit, ht, hn, hnn]

/-- Loop iteration with `this` and `next` both off-curve: `this`'s
effective coordinate becomes the truncating integer midpoint, it is
treated as on-curve, and an additional `MoveTo` at the midpoint is emitted
exactly when `j == 0` (source branch font_to_svg.hpp:234-245). -/
theorem do_outline_step_off_off (pthis pnext pnextnext : FTVector)
    (ttag ntag nntag : Nat) (ox oy : ℚ) (gen jz : Bool)
    (ht : ttag % 2 = 0) (hn : ntag % 2 = 0) :
    do_outline_step pthis pnext pnextnext ttag ntag nntag ox oy gen jz =
      (if jz then
        [PathCmd.moveTo
          (((truncQ ((pthis.x : ℚ) + ox) + truncQ ((pnext.x : ℚ) + ox)).tdiv 2 : ℤ) : ℚ)
          (((truncQ ((pthis.y : ℚ) + oy) + truncQ ((pnext.y : ℚ) + oy)).tdiv 2 : ℤ) : ℚ)]
      else [])
        ++ do_outline_emit
            ((truncQ ((pthis.x : ℚ) + ox) + truncQ ((pnext.x : ℚ) + ox)).tdiv 2)
            ((truncQ ((pthis.y : ℚ) + oy) + truncQ ((pnext.y : ℚ) + oy)).tdiv 2)
            (truncQ ((pnext.x : ℚ) + ox)) (truncQ ((pnext.y : ℚ) + oy))
            (truncQ ((pnextnext.x : ℚ) + ox)) (truncQ ((pnextnext.y : ℚ) + oy))
            false true (!(nntag % 2 == 1)) gen := by
  simp [do_outline_step, ht, hn]

/-- Loop iteration with `this` off-curve and `next` on-curve emits
nothing (source branch font_to_svg.hpp:272-274). -/
theorem do_outline_step_off_on (pthis pnext pnextnext : FTVector)
    (ttag ntag nntag : Nat) (ox oy : ℚ) (gen jz : Bool)
    (ht : ttag % 2 = 0) (hn : ntag % 2 = 1) :
    do_outline_step pthis pnext pnextnext ttag ntag nntag ox oy gen jz = [] := by
  simp [do_outline_step, do_outline_emit, ht, hn]

/-! ## C2: on / off / on rule and the P2 example -/

/-- C2 counterexample: the claimed P2 output `MoveTo(0,0);
QuadCurveTo(10,0,20,0); ClosePath` is not what the code produces for the
contour `[on(0,0), off(10,0), on(20,0)]` — the final loop iteration
(`this = on(20,0)`, `next = on(0,0)`) additionally emits `LineTo(0,0)`
before `ClosePath`. -/
theorem c2_counterexample :
    do_outline [⟨0, 0⟩, ⟨10, 0⟩, ⟨20, 0⟩] [1, 0, 1] [2] 0 0 true ≠
      SvgResult.path [PathCmd.moveTo 0 0, PathCmd.quadTo 10 0 20 0,
        PathCmd.closePath] := by
  have hval : do_outline [⟨0, 0⟩, ⟨10, 0⟩, ⟨20, 0⟩] [1, 0, 1] [2] 0 0 true
      = SvgResult.path [PathCmd.moveTo 0 0, PathCmd.quadTo 10 0 20 0,
        PathCmd.lineTo 0 0, PathCmd.closePath] := by
    have hr : (List.range ((2 - 0 + 1 : Int)).toNat) = [0, 1, 2] := rfl
    simp only [do_outline, List.length_cons, List.length_nil, do_outline_contours,
      do_outline_contour, hr, List.map_cons, List.map_nil, List.flatten_cons,
      List.flatten_nil]
    norm_num [do_outline_step, do_outline_emit, ptAt, tagAt, truncQ, List.getD,
      svgQuadraticBezier, show Int.toNat 2 = 2 from rfl, show Int.toNat 0 = 0 from rfl,
      show Int.toNat 1 = 1 from rfl]
  rw [hval]
  simp

/-- C2 (amended): a loop iteration with `this` on-curve, `next` off-curve
and `nextnext` on-curve emits `QuadCurveTo(control = next, end =
nextnext)` when `emitCurveCommands` is true and one `LineTo` per
tessellated sample otherwise; and the P2 contour `[on(0,0), off(10,0),
on(20,0)]` at offset `(0,0)` with curve commands enabled yields exactly
`MoveTo(0,0); QuadCurveTo(10,0,20,0); LineTo(0,0); ClosePath`. -/
theorem c2_amended_on_off_on :
    (∀ (pthis pnext pnextnext : FTVector) (ttag ntag nntag : Nat)
        (ox oy : ℚ) (gen jz : Bool),
      ttag % 2 = 1 → ntag % 2 = 0 → nntag % 2 = 1 →
      do_outline_step pthis pnext pnextnext ttag ntag nntag ox oy gen jz =
        if gen then
          [PathCmd.quadTo ((truncQ ((pnext.x : ℚ) + ox) : ℤ) : ℚ)
            ((truncQ ((pnext.y : ℚ) + oy) : ℤ) : ℚ)
            ((truncQ ((pnextnext.x : ℚ) + ox) : ℤ) : ℚ)
            ((truncQ ((pnextnext.y : ℚ) + oy) : ℤ) : ℚ)]
        else
          svgQuadraticBezier (fullQuadraticBezier
            ⟨((truncQ ((pthis.x : ℚ) + ox) : ℤ) : ℚ),
              ((truncQ ((pthis.y : ℚ) + oy) : ℤ) : ℚ)⟩
            ⟨((truncQ ((pnext.x : ℚ) + ox) : ℤ) : ℚ),
              ((truncQ ((pnext.y : ℚ) + oy) : ℤ) : ℚ)⟩
            ⟨((truncQ ((pnextnext.x : ℚ) + ox) : ℤ) : ℚ),
              ((truncQ ((pnextnext.y : ℚ) + oy) : ℤ) : ℚ)⟩ (1/10))) ∧
    do_outline [⟨0, 0⟩, ⟨10, 0⟩, ⟨20, 0⟩] [1, 0, 1] [2] 0 0 true =
      SvgResult.path [PathCmd.moveTo 0 0, PathCmd.quadTo 10 0 20 0,
        PathCmd.lineTo 0 0, PathCmd.closePath] := by
  constructor
  · intro pthis pnext pnextnext ttag ntag nntag ox oy gen jz ht hn hnn
    exact do_outline_step_on_off_on pthis pnext pnextnext ttag ntag nntag
      ox oy gen jz ht hn hnn
  · have hr : (List.range ((2 - 0 + 1 : Int)).toNat) = [0, 1, 2] := rfl
    simp only [do_outline, List.length_cons, List.length_nil, do_outline_contours,
      do_outline_contour, hr, List.map_cons, List.map_nil, List.flatten_cons,
      List.flatten_nil]
    norm_num [do_outline_step, do_outline_emit, ptAt, tagAt, truncQ, List.getD,
      svgQuadraticBezier, show Int.toNat 2 = 2 from rfl, show Int.toNat 0 = 0 from rfl,
      show Int.toNat 1 = 1 from rfl]

/-- Witness for C2's per-iteration rule at the concrete P2 triple. -/
theorem c2_amended_on_off_on_witness :
    do_outline_step ⟨0, 0⟩ ⟨10, 0⟩ ⟨20, 0⟩ 1 0 1 0 0 true false =
      [PathCmd.quadTo 10 0 20 0] := by
  rw [c2_amended_on_off_on.1 ⟨0, 0⟩ ⟨10, 0⟩ ⟨20, 0⟩ 1 0 1 0 0 true false
    rfl rfl rfl]
  norm_num [truncQ]

/-! ## C3: consecutive off-curve synthesis -/

/-- C3: when `this` and `next` are both off-curve, `this`'s effective
coordinate becomes the truncating integer midpoint of the two, it is
treated as on-curve for the iteration, and an additional `MoveTo` at that
midpoint is emitted exactly when `j == 0`; when `this` is on-curve and
`next`, `nextnext` are both off-curve, the emitted segment has control
`next` and ends at the truncating integer midpoint of `next` and
`nextnext`. -/
theorem c3_offcurve_pair_synthesis :
    (∀ (pthis pnext pnextnext : FTVector) (ttag ntag nntag : Nat)
        (ox oy : ℚ) (gen jz : Bool),
      ttag % 2 = 0 → ntag % 2 = 0 →
      do_outline_step pthis pnext pnextnext ttag ntag nntag ox oy gen jz =
        (if jz then
          [PathCmd.moveTo
            (((truncQ ((pthis.x : ℚ) + ox) + truncQ ((pnext.x : ℚ) + ox)).tdiv 2 : ℤ) : ℚ)
            (((truncQ ((pthis.y : ℚ) + oy) + truncQ ((pnext.y : ℚ) + oy)).tdiv 2 : ℤ) : ℚ)]
        else [])
          ++ do_outline_emit
              ((truncQ ((pthis.x : ℚ) + ox) + truncQ ((pnext.x : ℚ) + ox)).tdiv 2)
              ((truncQ ((pthis.y : ℚ) + oy) + truncQ ((pnext.y : ℚ) + oy)).tdiv 2)
              (truncQ ((pnext.x : ℚ) + ox)) (truncQ ((pnext.y : ℚ) + oy))
              (truncQ ((pnextnext.x : ℚ) + ox)) (truncQ ((pnextnext.y : ℚ) + oy))
              false true (!(nntag % 2 == 1)) gen) ∧
    (∀ (pthis pnext pnextnext : FTVector) (ttag ntag nntag : Nat)
        (ox oy : ℚ) (gen jz : Bool),
      ttag % 2 = 1 → ntag % 2 = 0 → nntag % 2 = 0 →
      do_outline_step pthis pnext pnextnext ttag ntag nntag ox oy gen jz =
        if gen then
          [PathCmd.quadTo ((truncQ ((pnext.x : ℚ) + ox) : ℤ) : ℚ)
            ((truncQ ((pnext.y : ℚ) + oy) : ℤ) : ℚ)
            (((truncQ ((pnext.x : ℚ) + ox) + truncQ ((pnextnext.x : ℚ) + ox)).tdiv 2 : ℤ) : ℚ)
            (((truncQ ((pnext.y : ℚ) + oy) + truncQ ((pnextnext.y : ℚ) + oy)).tdiv 2 : ℤ) : ℚ)]
        else
          svgQuadraticBezier (fullQuadraticBezier
            ⟨((truncQ ((pthis.x : ℚ) + ox) : ℤ) : ℚ),
              ((truncQ ((pthis.y : ℚ) + oy) : ℤ) : ℚ)⟩
            ⟨((truncQ ((pnext.x : ℚ) + ox) : ℤ) : ℚ),
              ((truncQ ((pnext.y : ℚ) + oy) : ℤ) : ℚ)⟩
            ⟨(((truncQ ((pnext.x : ℚ) + ox) + truncQ ((pnextnext.x : ℚ) + ox)).tdiv 2 : ℤ) : ℚ),
              (((truncQ ((pnext.y : ℚ) + oy) + truncQ ((pnextnext.y : ℚ) + oy)).tdiv 2 : ℤ) : ℚ)⟩
            (1/10))) := by
  constructor
  · intro pthis pnext pnextnext ttag ntag nntag ox oy gen jz ht hn
    exact do_outline_step_off_off pthis pnext pnextnext ttag ntag nntag
      ox oy gen jz ht hn
  · intro pthis pnext pnextnext ttag ntag nntag ox oy gen jz ht hn hnn
    exact do_outline_step_on_off_off pthis pnext pnextnext ttag ntag nntag
      ox oy gen jz ht hn hnn

/-- Witness for C3 at a concrete off-off leading pair: points `(1,1)` and
`(3,5)` both off-curve at `j = 0` synthesize the midpoint `(2,3)`. -/
theorem c3_offcurve_pair_synthesis_witness :
    do_outline_step ⟨1, 1⟩ ⟨3, 5⟩ ⟨0, 0⟩ 0 0 1 0 0 true true =
      [PathCmd.moveTo 2 3, PathCmd.quadTo 3 5 0 0] := by
  rw [c3_offcurve_pair_synthesis.1 ⟨1, 1⟩ ⟨3, 5⟩ ⟨0, 0⟩ 0 0 1 0 0 true true
    rfl rfl]
  norm_num [do_outline_emit, truncQ, show ((1 : ℤ) + 3).tdiv 2 = 2 from rfl,
    show ((1 : ℤ) + 5).tdiv 2 = 3 from rfl, show ((4 : ℤ)).tdiv 2 = 2 from rfl,
    show ((6 : ℤ)).tdiv 2 = 3 from rfl]

/-! ## C1: coordinate truncation -/

/-- C1 counterexample: at offset `(1/2, 0)` the initial `MoveTo` of the
contour carries the raw, untruncated sum `0 + 1/2 = 1/2`
(font_to_svg.hpp:205 streams the `double` sum), which differs from the
truncation `floor_or_truncate(0 + 1/2) = 0` mandated by the claim. -/
theorem c1_counterexample :
    do_outline [⟨0, 0⟩] [1] [0] (1/2) 0 true =
      SvgResult.path [PathCmd.moveTo (1/2) 0, PathCmd.lineTo 0 0,
        PathCmd.closePath] ∧
    ((1 : ℚ)/2) ≠ ((truncQ (((0 : Int) : ℚ) + 1/2) : ℤ) : ℚ) := by
  constructor
  · have hr : (List.range ((0 - 0 + 1 : Int)).toNat) = [0] := rfl
    simp only [do_outline, List.length_cons, List.length_nil, do_outline_contours,
      do_outline_contour, hr, List.map_cons, List.map_nil, List.flatten_cons,
      List.flatten_nil]
    norm_num [do_outline_step, do_outline_emit, ptAt, tagAt, truncQ, List.getD,
      svgQuadraticBezier, show Int.toNat 0 = 0 from rfl]
  · norm_num [truncQ]

/-- In curve-command mode, any command of the emission chain is one of the
two `QuadCurveTo` forms or the `LineTo` to `next`. -/
theorem do_outline_emit_mem_bezier (x y nx ny nnx nny : Int)
    (t n nn : Bool) (c : PathCmd)
    (hc : c ∈ do_outline_emit x y nx ny nnx nny t n nn true) :
    c = PathCmd.quadTo (nx : ℚ) (ny : ℚ) (nnx : ℚ) (nny : ℚ) ∨
    c = PathCmd.quadTo (nx : ℚ) (ny : ℚ) (((nx + nnx).tdiv 2 : ℤ) : ℚ)
        (((ny + nny).tdiv 2 : ℤ) : ℚ) ∨
    c = PathCmd.lineTo (nx : ℚ) (ny : ℚ) := by
  simp only [do_outline_emit] at hc
  split at hc
  · simp at hc
    tauto
  · split at hc
    · simp at hc
      tauto
    · split at hc
      · simp at hc
        tauto
      · simp at hc

/-- C1 (amended): in curve-command mode every coordinate emitted by the
inner loop (corrective `MoveTo`, both `QuadCurveTo` forms, advancing
`LineTo`) is an integer truncation `truncQ(point + offset)` or a
truncating integer average of two such truncations; by contrast the
initial `MoveTo` of each contour carries the raw, untruncated rational sum
`point + offset` (and, per the counterexample, tessellation-mode samples
are likewise exact Bezier values, not truncations). -/
theorem c1_amended_truncation :
    (∀ (pthis pnext pnextnext : FTVector) (ttag ntag nntag : Nat)
        (ox oy : ℚ) (jz : Bool) (c : PathCmd),
      c ∈ do_outline_step pthis pnext pnextnext ttag ntag nntag ox oy true jz →
      loopCoordShape pthis pnext pnextnext ox oy c) ∧
    (∀ (points : List FTVector) (tags : List Nat) (ox oy : ℚ) (gen : Bool)
        (endi : Int) (rest : List Int) (starti : Int),
      (do_outline_contours points tags ox oy gen (endi :: rest) starti).head? =
        some (PathCmd.moveTo (((ptAt points starti).x : ℚ) + ox)
          (((ptAt points starti).y : ℚ) + oy))) := by
  constructor
  · intro pthis pnext pnextnext ttag ntag nntag ox oy jz c hc
    simp only [do_outline_step] at hc
    split at hc
    · rcases List.mem_append.mp hc with h | h
      · split at h
        · simp at h
          exact Or.inl (by rw [h])
        · simp at h
      · exact Or.inr (do_outline_emit_mem_bezier _ _ _ _ _ _ _ _ _ _ h)
    · exact Or.inr (do_outline_emit_mem_bezier _ _ _ _ _ _ _ _ _ _ hc)
  · intro points tags ox oy gen endi rest starti
    simp [do_outline_contours]

/-- Witness for C1's loop-coordinate shape at the concrete P2 triple. -/
theorem c1_amended_truncation_witness :
    loopCoordShape ⟨0, 0⟩ ⟨10, 0⟩ ⟨20, 0⟩ 0 0 (PathCmd.quadTo 10 0 20 0) := by
  apply c1_amended_truncation.1 ⟨0, 0⟩ ⟨10, 0⟩ ⟨20, 0⟩ 1 0 1 0 0 false
  rw [do_outline_step_on_off_on ⟨0, 0⟩ ⟨10, 0⟩ ⟨20, 0⟩ 1 0 1 0 0 true false
    rfl rfl rfl]
  norm_num [truncQ]

/-! ## C5: polygon-only contour -/

/-- All-on-curve tags give odd tag values at every in-range index. -/
theorem tagAt_odd_of_all_odd (tags : List Nat)
    (hall : ∀ t ∈ tags, t % 2 = 1) (i : Int) (h0 : 0 ≤ i)
    (hi : i < (tags.length : Int)) : tagAt tags i % 2 = 1 := by
  have hlt : i.toNat < tags.length := by omega
  rw [tagAt, List.getD_eq_getElem _ _ hlt]
  exact hall _ (List.getElem_mem hlt)

/-- C5: a contour whose points are all on-curve yields exactly
`MoveTo(p0), LineTo(p1), …, LineTo(p(n-1)), LineTo(p0), ClosePath` —
the `j`-th loop iteration emits the line to point `(j+1) mod n` — with
zero `QuadCurveTo` commands. -/
theorem c5_polygon_contour (points : List FTVector) (tags : List Nat)
    (ox oy : ℚ) (gen : Bool) (hne : points ≠ [])
    (hlen : tags.length = points.length)
    (hall : ∀ t ∈ tags, t % 2 = 1) :
    do_outline points tags [(points.length : Int) - 1] ox oy gen =
      SvgResult.path
        (PathCmd.moveTo (((ptAt points 0).x : ℚ) + ox)
            (((ptAt points 0).y : ℚ) + oy)
          :: ((List.range points.length).map (fun (j : Nat) =>
                PathCmd.lineTo
                  ((truncQ (((ptAt points
                      (((j : Int) + 1) % (points.length : Int))).x : ℚ) + ox) : ℤ) : ℚ)
                  ((truncQ (((ptAt points
                      (((j : Int) + 1) % (points.length : Int))).y : ℚ) + oy) : ℤ) : ℚ))
            ++ [PathCmd.closePath])) ∧
    (do_outline points tags [(points.length : Int) - 1] ox oy gen).cmds.countP
      PathCmd.isQuadTo = 0 := by
  have hn : points.length ≠ 0 := fun h => hne (List.length_eq_zero.mp h)
  have hnpos : (0 : Int) < (points.length : Int) := by
    omega
  have hmain : do_outline points tags [(points.length : Int) - 1] ox oy gen =
      SvgResult.path
        (PathCmd.moveTo (((ptAt points 0).x : ℚ) + ox)
            (((ptAt points 0).y : ℚ) + oy)
          :: ((List.range points.length).map (fun (j : Nat) =>
                PathCmd.lineTo
                  ((truncQ (((ptAt points
                      (((j : Int) + 1) % (points.length : Int))).x : ℚ) + ox) : ℤ) : ℚ)
                  ((truncQ (((ptAt points
                      (((j : Int) + 1) % (points.length : Int))).y : ℚ) + oy) : ℤ) : ℚ))
            ++ [PathCmd.closePath])) := by
    rw [do_outline]
    rw [if_neg hn, if_neg (by simp : ¬ ([(points.length : Int) - 1].length = 0))]
    rw [do_outline_contours]
    have hnpts : (points.length : Int) - 1 - 0 + 1 = (points.length : Int) := by ring
    rw [do_outline_contour, hnpts, Int.toNat_natCast]
    have hsteps : (List.range points.length).map (fun (j : Nat) =>
        do_outline_step
          (ptAt points ((j : Int) % (points.length : Int) + 0))
          (ptAt points (((j : Int) + 1) % (points.length : Int) + 0))
          (ptAt points (((j : Int) + 2) % (points.length : Int) + 0))
          (tagAt tags ((j : Int) % (points.length : Int) + 0))
          (tagAt tags (((j : Int) + 1) % (points.length : Int) + 0))
          (tagAt tags (((j : Int) + 2) % (points.length : Int) + 0))
          ox oy gen (j == 0)) =
        (List.range points.length).map (fun (j : Nat) =>
          [PathCmd.lineTo
            ((truncQ (((ptAt points
                (((j : Int) + 1) % (points.length : Int))).x : ℚ) + ox) : ℤ) : ℚ)
            ((truncQ (((ptAt points
                (((j : Int) + 1) % (points.length : Int))).y : ℚ) + oy) : ℤ) : ℚ)]) := by
      apply List.map_congr_left
      intro j hj
      rw [add_zero, add_zero, add_zero]
      apply do_outline_step_on_on
      · apply tagAt_odd_of_all_odd tags hall
        · exact Int.emod_nonneg _ (by omega)
        · rw [hlen]
          exact Int.emod_lt_of_pos _ hnpos
      · apply tagAt_odd_of_all_odd tags hall
        · exact Int.emod_nonneg _ (by omega)
        · rw [hlen]
          exact Int.emod_lt_of_pos _ hnpos
    rw [hsteps, flatten_map_singleton]
    rw [do_outline_contours]
    simp
  refine ⟨hmain, ?_⟩
  rw [hmain]
  rw [SvgResult.cmds]
  rw [List.countP_cons]
  rw [List.countP_append, List.countP_map]
  simp [PathCmd.isQuadTo, Function.comp]

/-- Witness for C5 at the concrete 2-point polygon `[(0,0), (5,3)]`. -/
theorem c5_polygon_contour_witness :
    do_outline [(⟨0, 0⟩ : FTVector), ⟨5, 3⟩] [1, 1]
        [(([(⟨0, 0⟩ : FTVector), ⟨5, 3⟩].length : Int)) - 1] 0 0 true =
      SvgResult.path
        (PathCmd.moveTo (((ptAt [⟨0, 0⟩, ⟨5, 3⟩] 0).x : ℚ) + 0)
            (((ptAt [⟨0, 0⟩, ⟨5, 3⟩] 0).y : ℚ) + 0)
          :: ((List.range [(⟨0, 0⟩ : FTVector), ⟨5, 3⟩].length).map (fun (j : Nat) =>
                PathCmd.lineTo
                  ((truncQ (((ptAt [⟨0, 0⟩, ⟨5, 3⟩]
                      (((j : Int) + 1) %
                        ([(⟨0, 0⟩ : FTVector), ⟨5, 3⟩].length : Int))).x : ℚ) + 0) : ℤ) : ℚ)
                  ((truncQ (((ptAt [⟨0, 0⟩, ⟨5, 3⟩]
                      (((j : Int) + 1) %
                        ([(⟨0, 0⟩ : FTVector), ⟨5, 3⟩].length : Int))).y : ℚ) + 0) : ℤ) : ℚ))
            ++ [PathCmd.closePath])) ∧
    (do_outline [(⟨0, 0⟩ : FTVector), ⟨5, 3⟩] [1, 1]
        [(([(⟨0, 0⟩ : FTVector), ⟨5, 3⟩].length : Int)) - 1] 0 0 true).cmds.countP
      PathCmd.isQuadTo = 0 :=
  c5_polygon_contour [⟨0, 0⟩, ⟨5, 3⟩] [1, 1] 0 0 true (by decide) rfl
    (by decide)

/-! ## C7: single leading off-curve point -/

/-- The emission chain never contains a `MoveTo`. -/
theorem do_outline_emit_countP_moveTo (x y nx ny nnx nny : Int)
    (t n nn gen : Bool) :
    (do_outline_emit x y nx ny nnx nny t n nn gen).countP PathCmd.isMoveTo
      = 0 := by
  rw [do_outline_emit]
  split
  · split <;>
      simp [svgQuadraticBezier, List.countP_map, Function.comp,
        PathCmd.isMoveTo, List.countP_cons]
  · split
    · split <;>
        simp [svgQuadraticBezier, List.countP_map, Function.comp,
          PathCmd.isMoveTo, List.countP_cons]
    · split <;> simp [PathCmd.isMoveTo, List.countP_cons]

/-- A non-initial loop iteration (`j ≠ 0`) never emits a `MoveTo`. -/
theorem do_outline_step_countP_moveTo (pthis pnext pnextnext : FTVector)
    (ttag ntag nntag : Nat) (ox oy : ℚ) (gen : Bool) :
    (do_outline_step pthis pnext pnextnext ttag ntag nntag ox oy gen
        false).countP PathCmd.isMoveTo = 0 := by
  rw [do_outline_step]
  split
  · simp [List.countP_append, do_outline_emit_countP_moveTo]
  · exact do_outline_emit_countP_moveTo _ _ _ _ _ _ _ _ _ _

/-- C7: for a contour whose first point is off-curve and whose second
point is on-curve, the initial `MoveTo` is emitted at the first point's
raw coordinates without correction, and no further `MoveTo` is emitted
for the contour (the corrective mid-point `MoveTo` only fires when the
first two points are both off-curve). -/
theorem c7_leading_offcurve (points : List FTVector) (tags : List Nat)
    (ox oy : ℚ) (gen : Bool) (h2 : 2 ≤ points.length)
    (hlen : tags.length = points.length)
    (h0 : tagAt tags 0 % 2 = 0) (h1 : tagAt tags 1 % 2 = 1) :
    (do_outline points tags [(points.length : Int) - 1] ox oy gen).cmds.head? =
      some (PathCmd.moveTo (((ptAt points 0).x : ℚ) + ox)
        (((ptAt points 0).y : ℚ) + oy)) ∧
    (do_outline points tags [(points.length : Int) - 1] ox oy gen).cmds.countP
      PathCmd.isMoveTo = 1 := by
  have hn : points.length ≠ 0 := by omega
  have hpath : do_outline points tags [(points.length : Int) - 1] ox oy gen =
      SvgResult.path
        (PathCmd.moveTo (((ptAt points 0).x : ℚ) + ox)
            (((ptAt points 0).y : ℚ) + oy)
          :: (do_outline_contour points tags 0 ((points.length : Int) - 1 - 0 + 1)
                ox oy gen
              ++ [PathCmd.closePath])) := by
    rw [do_outline, if_neg hn, if_neg (by simp)]
    simp only [do_outline_contours]
    rw [List.append_nil]
  have hcount : (do_outline_contour points tags 0
      ((points.length : Int) - 1 - 0 + 1) ox oy gen).countP PathCmd.isMoveTo
      = 0 := by
    have hnpts : (points.length : Int) - 1 - 0 + 1 = (points.length : Int) := by
      ring
    rw [hnpts, do_outline_contour, Int.toNat_natCast, List.countP_flatten,
      List.map_map]
    apply List.sum_eq_zero
    intro x hx
    rw [List.mem_map] at hx
    obtain ⟨j, hj, rfl⟩ := hx
    rw [Function.comp_apply]
    rcases Nat.eq_zero_or_pos j with hj0 | hjpos
    · subst hj0
      have e0 : ((0 : Nat) : Int) % (points.length : Int) + 0 = 0 := by
        simp
      have e1 : (((0 : Nat) : Int) + 1) % (points.length : Int) + 0 = 1 := by
        rw [add_zero, Nat.cast_zero, zero_add, Int.emod_eq_of_lt (by omega) (by omega)]
      rw [e0, e1, do_outline_step_off_on _ _ _ _ _ _ _ _ _ _ h0 h1]
      rfl
    · have hbeq : (j == 0) = false := by
        simp only [beq_eq_false_iff_ne, ne_eq]
        omega
      rw [hbeq]
      exact do_outline_step_countP_moveTo _ _ _ _ _ _ _ _ _
  constructor
  · rw [hpath]
    rfl
  · rw [hpath, SvgResult.cmds, List.countP_cons, List.countP_append, hcount]
    rfl

/-- Witness for C7 at the concrete contour `[off(4,4), on(9,2)]`. -/
theorem c7_leading_offcurve_witness :
    (do_outline [(⟨4, 4⟩ : FTVector), ⟨9, 2⟩] [0, 1]
        [(([(⟨4, 4⟩ : FTVector), ⟨9, 2⟩].length : Int)) - 1] 0 0 true).cmds.head? =
      some (PathCmd.moveTo (((ptAt [⟨4, 4⟩, ⟨9, 2⟩] 0).x : ℚ) + 0)
        (((ptAt [⟨4, 4⟩, ⟨9, 2⟩] 0).y : ℚ) + 0)) ∧
    (do_outline [(⟨4, 4⟩ : FTVector), ⟨9, 2⟩] [0, 1]
        [(([(⟨4, 4⟩ : FTVector), ⟨9, 2⟩].length : Int)) - 1] 0 0 true).cmds.countP
      PathCmd.isMoveTo = 1 :=
  c7_leading_offcurve [⟨4, 4⟩, ⟨9, 2⟩] [0, 1] 0 0 true (by decide) rfl
    (by decide) (by decide)

/-! ## C8: offset translation -/

/-- C8 counterexample: translating the inputs of the single-point contour
`[on(0,0)]` by `(dx, dy) = (1/2, 0)` does not shift every coordinate by
`(floor(1/2), floor(0)) = (0, 0)`: the initial `MoveTo` moves by the full
untruncated `1/2`. -/
theorem c8_counterexample :
    do_outline [⟨0, 0⟩] [1] [0] (0 + 1/2) (0 + 0) true ≠
      SvgResult.mapCmds (shiftCmd ((⌊(1/2 : ℚ)⌋ : ℤ) : ℚ) ((⌊(0 : ℚ)⌋ : ℤ) : ℚ))
        (do_outline [⟨0, 0⟩] [1] [0] 0 0 true) := by
  have h1 : do_outline [⟨0, 0⟩] [1] [0] (0 + 1/2) (0 + 0) true =
      SvgResult.path [PathCmd.moveTo (1/2) 0, PathCmd.lineTo 0 0,
        PathCmd.closePath] := by
    have hr : (List.range ((0 - 0 + 1 : Int)).toNat) = [0] := rfl
    simp only [do_outline, List.length_cons, List.length_nil, do_outline_contours,
      do_outline_contour, hr, List.map_cons, List.map_nil, List.flatten_cons,
      List.flatten_nil]
    norm_num [do_outline_step, do_outline_emit, ptAt, tagAt, truncQ, List.getD,
      svgQuadraticBezier, show Int.toNat 0 = 0 from rfl]
  have h2 : do_outline [⟨0, 0⟩] [1] [0] 0 0 true =
      SvgResult.path [PathCmd.moveTo 0 0, PathCmd.lineTo 0 0,
        PathCmd.closePath] := by
    have hr : (List.range ((0 - 0 + 1 : Int)).toNat) = [0] := rfl
    simp only [do_outline, List.length_cons, List.length_nil, do_outline_contours,
      do_outline_contour, hr, List.map_cons, List.map_nil, List.flatten_cons,
      List.flatten_nil]
    norm_num [do_outline_step, do_outline_emit, ptAt, tagAt, truncQ, List.getD,
      svgQuadraticBezier, show Int.toNat 0 = 0 from rfl]
  rw [h1, h2]
  norm_num [SvgResult.mapCmds, shiftCmd]

/-- Truncation toward zero agrees with the floor on nonnegative
rationals. -/
theorem truncQ_eq_floor (q : ℚ) (h : 0 ≤ q) : truncQ q = ⌊q⌋ :=
  if_pos h

/-- Truncation toward zero is nonnegative on nonnegative rationals. -/
theorem truncQ_nonneg (q : ℚ) (h : 0 ≤ q) : 0 ≤ truncQ q := by
  rw [truncQ_eq_floor q h]
  exact Int.floor_nonneg.mpr h

/-- Truncation commutes with an integer shift while both arguments stay
nonnegative. -/
theorem truncQ_add_intCast (q : ℚ) (n : ℤ) (h : 0 ≤ q) (h' : 0 ≤ q + n) :
    truncQ (q + (n : ℚ)) = truncQ q + n := by
  rw [truncQ_eq_floor _ h', truncQ_eq_floor _ h, Int.floor_add_int]

/-- The truncating average commutes with an integer shift of both
operands while everything stays nonnegative. -/
theorem tdiv_two_add_shift (a b n : ℤ) (ha : 0 ≤ a) (hb : 0 ≤ b)
    (ha' : 0 ≤ a + n) (hb' : 0 ≤ b + n) :
    ((a + n) + (b + n)).tdiv 2 = (a + b).tdiv 2 + n := by
  rw [Int.tdiv_eq_ediv (by omega) (by omega),
    Int.tdiv_eq_ediv (by omega) (by omega),
    show (a + n) + (b + n) = (a + b) + n * 2 by ring,
    Int.add_mul_ediv_right _ _ (by norm_num)]

/-- The quadratic Bezier evaluation commutes with translation. -/
theorem quadraticBezier_shift (p0 p1 p2 : Point2D) (d e t : ℚ) :
    quadraticBezier ⟨p0.x + d, p0.y + e⟩ ⟨p1.x + d, p1.y + e⟩
        ⟨p2.x + d, p2.y + e⟩ t =
      ⟨(quadraticBezier p0 p1 p2 t).x + d,
        (quadraticBezier p0 p1 p2 t).y + e⟩ := by
  simp only [quadraticBezier, Point2D.mk.injEq]
  constructor <;> ring

/-- The full tessellation commutes with translation. -/
theorem fullQuadraticBezier_shift (x0 y0 x1 y1 x2 y2 d e inc : ℚ) :
    fullQuadraticBezier ⟨x0 + d, y0 + e⟩ ⟨x1 + d, y1 + e⟩
        ⟨x2 + d, y2 + e⟩ inc =
      (fullQuadraticBezier ⟨x0, y0⟩ ⟨x1, y1⟩ ⟨x2, y2⟩ inc).map
        (fun p => ⟨p.x + d, p.y + e⟩) := by
  rw [fullQuadraticBezier, fullQuadraticBezier]
  split
  · rw [List.map_map]
    apply List.map_congr_left
    intro k _
    exact quadraticBezier_shift ⟨x0, y0⟩ ⟨x1, y1⟩ ⟨x2, y2⟩ d e _
  · rfl

/-- The line-segment rendering of a tessellation commutes with
translation. -/
theorem svgQuadraticBezier_shift (l : List Point2D) (d e : ℚ) :
    svgQuadraticBezier (l.map (fun p => ⟨p.x + d, p.y + e⟩)) =
      (svgQuadraticBezier l).map (shiftCmd d e) := by
  rw [svgQuadraticBezier, svgQuadraticBezier, List.map_map, List.map_map]
  apply List.map_congr_left
  intro p _
  rfl
/-- Tessellated-line output commutes with an integer translation of the
three (integer) input points. -/
theorem tess_shift (px py qx qy rx ry dx dy : ℤ) :
    svgQuadraticBezier (fullQuadraticBezier
        ⟨((px + dx : ℤ) : ℚ), ((py + dy : ℤ) : ℚ)⟩
        ⟨((qx + dx : ℤ) : ℚ), ((qy + dy : ℤ) : ℚ)⟩
        ⟨((rx + dx : ℤ) : ℚ), ((ry + dy : ℤ) : ℚ)⟩) =
      (svgQuadraticBezier (fullQuadraticBezier ⟨(px : ℚ), (py : ℚ)⟩
        ⟨(qx : ℚ), (qy : ℚ)⟩ ⟨(rx : ℚ), (ry : ℚ)⟩)).map
        (shiftCmd (dx : ℚ) (dy : ℚ)) := by
  have e : ∀ a b : ℤ, ((a + b : ℤ) : ℚ) = (a : ℚ) + (b : ℚ) := fun a b => by
    push_cast
    ring
  rw [e, e, e, e, e, e, fullQuadraticBezier_shift, svgQuadraticBezier_shift]

/-- The emission chain commutes with an integer translation of its six
coordinates, while the `next`/`nextnext` coordinates stay nonnegative
before and after the shift (so that truncating division agrees with floor
division). -/
theorem do_outline_emit_shift (x y nx ny nnx nny : Int) (t n nn gen : Bool)
    (dx dy : ℤ)
    (hnx : 0 ≤ nx) (hny : 0 ≤ ny) (hnnx : 0 ≤ nnx) (hnny : 0 ≤ nny)
    (hnx' : 0 ≤ nx + dx) (hny' : 0 ≤ ny + dy) (hnnx' : 0 ≤ nnx + dx)
    (hnny' : 0 ≤ nny + dy) :
    do_outline_emit (x + dx) (y + dy) (nx + dx) (ny + dy) (nnx + dx)
        (nny + dy) t n nn gen =
      (do_outline_emit x y nx ny nnx nny t n nn gen).map
        (shiftCmd (dx : ℚ) (dy : ℚ)) := by
  have hmid1 : ((nx + dx) + (nnx + dx)).tdiv 2 = (nx + nnx).tdiv 2 + dx :=
    tdiv_two_add_shift nx nnx dx hnx hnnx hnx' hnnx'
  have hmid2 : ((ny + dy) + (nny + dy)).tdiv 2 = (ny + nny).tdiv 2 + dy :=
    tdiv_two_add_shift ny nny dy hny hnny hny' hnny'
  rcases t <;> rcases n <;> rcases nn <;> rcases gen <;>
    simp only [do_outline_emit, Bool.not_true, Bool.not_false, Bool.and_true,
      Bool.and_false, Bool.true_and, Bool.false_and, Bool.and_self,
      if_true, if_false, Bool.false_eq_true, List.map_cons, List.map_nil,
      shiftCmd, hmid1, hmid2, tess_shift] <;>
    push_cast <;>
    norm_num
/-- One loop iteration commutes with an integer translation of the
offsets, provided every transformed coordinate is nonnegative before and
after the shift. -/
theorem do_outline_step_shift (pthis pnext pnextnext : FTVector)
    (ttag ntag nntag : Nat) (ox oy : ℚ) (dx dy : ℤ) (gen jz : Bool)
    (h1 : 0 ≤ (pthis.x : ℚ) + ox) (h1' : 0 ≤ (pthis.x : ℚ) + ox + (dx : ℚ))
    (h2 : 0 ≤ (pthis.y : ℚ) + oy) (h2' : 0 ≤ (pthis.y : ℚ) + oy + (dy : ℚ))
    (h3 : 0 ≤ (pnext.x : ℚ) + ox) (h3' : 0 ≤ (pnext.x : ℚ) + ox + (dx : ℚ))
    (h4 : 0 ≤ (pnext.y : ℚ) + oy) (h4' : 0 ≤ (pnext.y : ℚ) + oy + (dy : ℚ))
    (h5 : 0 ≤ (pnextnext.x : ℚ) + ox)
    (h5' : 0 ≤ (pnextnext.x : ℚ) + ox + (dx : ℚ))
    (h6 : 0 ≤ (pnextnext.y : ℚ) + oy)
    (h6' : 0 ≤ (pnextnext.y : ℚ) + oy + (dy : ℚ)) :
    do_outline_step pthis pnext pnextnext ttag ntag nntag (ox + (dx : ℚ))
        (oy + (dy : ℚ)) gen jz =
      (do_outline_step pthis pnext pnextnext ttag ntag nntag ox oy gen
        jz).map (shiftCmd (dx : ℚ) (dy : ℚ)) := by
  have gx : 0 ≤ truncQ ((pthis.x : ℚ) + ox) := truncQ_nonneg _ h1
  have gy : 0 ≤ truncQ ((pthis.y : ℚ) + oy) := truncQ_nonneg _ h2
  have gnx : 0 ≤ truncQ ((pnext.x : ℚ) + ox) := truncQ_nonneg _ h3
  have gny : 0 ≤ truncQ ((pnext.y : ℚ) + oy) := truncQ_nonneg _ h4
  have gnnx : 0 ≤ truncQ ((pnextnext.x : ℚ) + ox) := truncQ_nonneg _ h5
  have gnny : 0 ≤ truncQ ((pnextnext.y : ℚ) + oy) := truncQ_nonneg _ h6
  have gx' : 0 ≤ truncQ ((pthis.x : ℚ) + ox) + dx := by
    rw [← truncQ_add_intCast _ _ h1 h1']
    exact truncQ_nonneg _ h1'
  have gy' : 0 ≤ truncQ ((pthis.y : ℚ) + oy) + dy := by
    rw [← truncQ_add_intCast _ _ h2 h2']
    exact truncQ_nonneg _ h2'
  have gnx' : 0 ≤ truncQ ((pnext.x : ℚ) + ox) + dx := by
    rw [← truncQ_add_intCast _ _ h3 h3']
    exact truncQ_nonneg _ h3'
  have gny' : 0 ≤ truncQ ((pnext.y : ℚ) + oy) + dy := by
    rw [← truncQ_add_intCast _ _ h4 h4']
    exact truncQ_nonneg _ h4'
  have gnnx' : 0 ≤ truncQ ((pnextnext.x : ℚ) + ox) + dx := by
    rw [← truncQ_add_intCast _ _ h5 h5']
    exact truncQ_nonneg _ h5'
  have gnny' : 0 ≤ truncQ ((pnextnext.y : ℚ) + oy) + dy := by
    rw [← truncQ_add_intCast _ _ h6 h6']
    exact truncQ_nonneg _ h6'
  simp only [do_outline_step]
  rw [show (pthis.x : ℚ) + (ox + (dx : ℚ)) = ((pthis.x : ℚ) + ox) + (dx : ℚ)
      from by ring,
    show (pthis.y : ℚ) + (oy + (dy : ℚ)) = ((pthis.y : ℚ) + oy) + (dy : ℚ)
      from by ring,
    show (pnext.x : ℚ) + (ox + (dx : ℚ)) = ((pnext.x : ℚ) + ox) + (dx : ℚ)
      from by ring,
    show (pnext.y : ℚ) + (oy + (dy : ℚ)) = ((pnext.y : ℚ) + oy) + (dy : ℚ)
      from by ring,
    show (pnextnext.x : ℚ) + (ox + (dx : ℚ)) = ((pnextnext.x : ℚ) + ox) + (dx : ℚ)
      from by ring,
    show (pnextnext.y : ℚ) + (oy + (dy : ℚ)) = ((pnextnext.y : ℚ) + oy) + (dy : ℚ)
      from by ring,
    truncQ_add_intCast _ _ h1 h1', truncQ_add_intCast _ _ h2 h2',
    truncQ_add_intCast _ _ h3 h3', truncQ_add_intCast _ _ h4 h4',
    truncQ_add_intCast _ _ h5 h5', truncQ_add_intCast _ _ h6 h6']
  by_cases hb : (!(ttag % 2 == 1) && !(ntag % 2 == 1)) = true
  · simp only [hb, if_true]
    rw [tdiv_two_add_shift _ _ _ gx gnx gx' gnx',
      tdiv_two_add_shift _ _ _ gy gny gy' gny', List.map_append]
    congr 1
    · rcases jz <;> simp [shiftCmd]
    · exact do_outline_emit_shift _ _ _ _ _ _ _ _ _ _ _ _
        gnx gny gnnx gnny gnx' gny' gnnx' gnny'
  · simp only [Bool.not_eq_true] at hb
    simp only [hb, Bool.false_eq_true, if_false]
    exact do_outline_emit_shift _ _ _ _ _ _ _ _ _ _ _ _
      gnx gny gnnx gnny gnx' gny' gnnx' gnny'
/-- One contour loop commutes with an integer translation of the offsets,
under the nonnegativity hypotheses. -/
theorem do_outline_contour_shift (points : List FTVector) (tags : List Nat)
    (offset npts : Int) (ox oy : ℚ) (dx dy : ℤ) (gen : Bool)
    (hx : ∀ i : Int, 0 ≤ ((ptAt points i).x : ℚ) + ox)
    (hx' : ∀ i : Int, 0 ≤ ((ptAt points i).x : ℚ) + ox + (dx : ℚ))
    (hy : ∀ i : Int, 0 ≤ ((ptAt points i).y : ℚ) + oy)
    (hy' : ∀ i : Int, 0 ≤ ((ptAt points i).y : ℚ) + oy + (dy : ℚ)) :
    do_outline_contour points tags offset npts (ox + (dx : ℚ))
        (oy + (dy : ℚ)) gen =
      (do_outline_contour points tags offset npts ox oy gen).map
        (shiftCmd (dx : ℚ) (dy : ℚ)) := by
  rw [do_outline_contour, do_outline_contour, List.map_flatten, List.map_map]
  congr 1
  apply List.map_congr_left
  intro j _
  exact do_outline_step_shift _ _ _ _ _ _ _ _ _ _ _ _
    (hx _) (hx' _) (hy _) (hy' _) (hx _) (hx' _) (hy _) (hy' _)
    (hx _) (hx' _) (hy _) (hy' _)

/-- The outer contour loop commutes with an integer translation of the
offsets, under the nonnegativity hypotheses. -/
theorem do_outline_contours_shift (points : List FTVector) (tags : List Nat)
    (ox oy : ℚ) (dx dy : ℤ) (gen : Bool)
    (hx : ∀ i : Int, 0 ≤ ((ptAt points i).x : ℚ) + ox)
    (hx' : ∀ i : Int, 0 ≤ ((ptAt points i).x : ℚ) + ox + (dx : ℚ))
    (hy : ∀ i : Int, 0 ≤ ((ptAt points i).y : ℚ) + oy)
    (hy' : ∀ i : Int, 0 ≤ ((ptAt points i).y : ℚ) + oy + (dy : ℚ))
    (contoursList : List Int) :
    ∀ starti : Int,
    do_outline_contours points tags (ox + (dx : ℚ)) (oy + (dy : ℚ)) gen
        contoursList starti =
      (do_outline_contours points tags ox oy gen contoursList starti).map
        (shiftCmd (dx : ℚ) (dy : ℚ)) := by
  induction contoursList with
  | nil =>
    intro starti
    rfl
  | cons endi rest ih =>
    intro starti
    simp only [do_outline_contours]
    rw [List.map_append, List.map_cons, List.map_append]
    congr 1
    · congr 1
      · simp only [shiftCmd, PathCmd.moveTo.injEq]
        constructor <;> ring
      · rw [do_outline_contour_shift points tags starti _ ox oy dx dy gen
          hx hx' hy hy']
        simp [shiftCmd]
    · exact ih _

/-- C8 (amended): for an integer translation `(dx, dy)` of the offsets,
and inputs whose transformed coordinates stay nonnegative both before and
after the translation, re-running yields the same command sequence with
every coordinate — the untruncated initial `MoveTo`s included — shifted
by exactly `(dx, dy)`.  (For non-integer or sign-crossing translations
the claim fails, see the counterexample: the untruncated `MoveTo` moves
by the full `dx`, not `floor(dx)`, and truncation toward zero is not
shift-invariant across zero.) -/
theorem c8_amended_offset_translation (points : List FTVector)
    (tags : List Nat) (contours : List Int) (ox oy : ℚ) (dx dy : ℤ)
    (gen : Bool)
    (hx : ∀ i : Int, 0 ≤ ((ptAt points i).x : ℚ) + ox)
    (hx' : ∀ i : Int, 0 ≤ ((ptAt points i).x : ℚ) + ox + (dx : ℚ))
    (hy : ∀ i : Int, 0 ≤ ((ptAt points i).y : ℚ) + oy)
    (hy' : ∀ i : Int, 0 ≤ ((ptAt points i).y : ℚ) + oy + (dy : ℚ)) :
    do_outline points tags contours (ox + (dx : ℚ)) (oy + (dy : ℚ)) gen =
      SvgResult.mapCmds (shiftCmd (dx : ℚ) (dy : ℚ))
        (do_outline points tags contours ox oy gen) := by
  rw [do_outline, do_outline]
  by_cases hp : points.length = 0
  · simp [hp, SvgResult.mapCmds]
  · rw [if_neg hp, if_neg hp]
    by_cases hc : contours.length = 0
    · simp [hc, SvgResult.mapCmds]
    · rw [if_neg hc, if_neg hc, SvgResult.mapCmds]
      exact congrArg SvgResult.path
        (do_outline_contours_shift points tags ox oy dx dy gen hx hx' hy hy'
          contours 0)

/-- Every index of the singleton point list resolves to the origin. -/
theorem ptAt_singleton_origin (i : Int) :
    ptAt [(⟨0, 0⟩ : FTVector)] i = ⟨0, 0⟩ := by
  rw [ptAt]
  cases i.toNat <;> rfl

/-- Witness for C8 at the concrete single-point contour, integer
translation `(1, 2)`. -/
theorem c8_amended_offset_translation_witness :
    do_outline [(⟨0, 0⟩ : FTVector)] [1] [0] (0 + ((1 : ℤ) : ℚ))
        (0 + ((2 : ℤ) : ℚ)) true =
      SvgResult.mapCmds (shiftCmd ((1 : ℤ) : ℚ) ((2 : ℤ) : ℚ))
        (do_outline [(⟨0, 0⟩ : FTVector)] [1] [0] 0 0 true) :=
  c8_amended_offset_translation [⟨0, 0⟩] [1] [0] 0 0 1 2 true
    (fun i => by rw [ptAt_singleton_origin i]; norm_num)
    (fun i => by rw [ptAt_singleton_origin i]; norm_num)
    (fun i => by rw [ptAt_singleton_origin i]; norm_num)
    (fun i => by rw [ptAt_singleton_origin i]; norm_num)

/-! ## C9: contour independence -/

/-- Indexing an appended point list below the first list's length reads
the first list. -/
theorem ptAt_append_left (P1 P2 : List FTVector) (i : Int) (h0 : 0 ≤ i)
    (h : i < (P1.length : Int)) : ptAt (P1 ++ P2) i = ptAt P1 i := by
  rw [ptAt, ptAt, List.getD_append]
  omega

/-- Indexing an appended tag list below the first list's length reads the
first list. -/
theorem tagAt_append_left (T1 T2 : List Nat) (i : Int) (h0 : 0 ≤ i)
    (h : i < (T1.length : Int)) : tagAt (T1 ++ T2) i = tagAt T1 i := by
  rw [tagAt, tagAt, List.getD_append]
  omega

/-- Indexing an appended point list at an index shifted by the first
list's length reads the second list. -/
theorem ptAt_append_right (P1 P2 : List FTVector) (i : Int) (h0 : 0 ≤ i) :
    ptAt (P1 ++ P2) (i + (P1.length : Int)) = ptAt P2 i := by
  rw [ptAt, ptAt]
  have ht : (i + (P1.length : Int)).toNat = P1.length + i.toNat := by omega
  rw [ht, List.getD_append_right _ _ _ _ (Nat.le_add_right _ _)]
  congr 1
  omega

/-- Indexing an appended tag list at an index shifted by `L` (the first
list's length) reads the second list. -/
theorem tagAt_append_right (T1 T2 : List Nat) (L : Nat)
    (hL : T1.length = L) (i : Int) (h0 : 0 ≤ i) :
    tagAt (T1 ++ T2) (i + (L : Int)) = tagAt T2 i := by
  subst hL
  rw [tagAt, tagAt]
  have ht : (i + (T1.length : Int)).toNat = T1.length + i.toNat := by omega
  rw [ht, List.getD_append_right _ _ _ _ (Nat.le_add_right _ _)]
  congr 1
  omega

/-- A contour whose index range lies inside the first point list is
unaffected by appending a second outline. -/
theorem do_outline_contour_append_left (P1 P2 : List FTVector)
    (T1 T2 : List Nat) (hT : T1.length = P1.length) (offset npts : Int)
    (ox oy : ℚ) (gen : Bool) (h0 : 0 ≤ offset)
    (hb : offset + npts ≤ (P1.length : Int)) :
    do_outline_contour (P1 ++ P2) (T1 ++ T2) offset npts ox oy gen =
      do_outline_contour P1 T1 offset npts ox oy gen := by
  rw [do_outline_contour, do_outline_contour]
  congr 1
  apply List.map_congr_left
  intro j hj
  rw [List.mem_range] at hj
  have hnpts : 0 < npts := by omega
  have hidx : ∀ m : Int, 0 ≤ m % npts + offset ∧
      m % npts + offset < (P1.length : Int) := by
    intro m
    have hm1 := Int.emod_nonneg m (by omega : npts ≠ 0)
    have hm2 := Int.emod_lt_of_pos m hnpts
    omega
  rw [ptAt_append_left P1 P2 _ (hidx _).1 (hidx _).2,
    ptAt_append_left P1 P2 _ (hidx _).1 (hidx _).2,
    ptAt_append_left P1 P2 _ (hidx _).1 (hidx _).2,
    tagAt_append_left T1 T2 _ (hidx _).1 (by rw [hT]; exact (hidx _).2),
    tagAt_append_left T1 T2 _ (hidx _).1 (by rw [hT]; exact (hidx _).2),
    tagAt_append_left T1 T2 _ (hidx _).1 (by rw [hT]; exact (hidx _).2)]

/-- A contour whose index range is shifted by the first point list's
length reads exactly the second outline. -/
theorem do_outline_contour_append_right (P1 P2 : List FTVector)
    (T1 T2 : List Nat) (hT : T1.length = P1.length) (offset npts : Int)
    (ox oy : ℚ) (gen : Bool) (h0 : 0 ≤ offset) :
    do_outline_contour (P1 ++ P2) (T1 ++ T2)
        (offset + (P1.length : Int)) npts ox oy gen =
      do_outline_contour P2 T2 offset npts ox oy gen := by
  rw [do_outline_contour, do_outline_contour]
  congr 1
  apply List.map_congr_left
  intro j hj
  rw [List.mem_range] at hj
  have hnpts : 0 < npts := by omega
  have hre : ∀ m : Int, m % npts + (offset + (P1.length : Int)) =
      (m % npts + offset) + (P1.length : Int) := fun m => by ring
  have hnn : ∀ m : Int, 0 ≤ m % npts + offset := by
    intro m
    have hm1 := Int.emod_nonneg m (by omega : npts ≠ 0)
    omega
  rw [hre, hre, hre,
    ptAt_append_right P1 P2 _ (hnn _), ptAt_append_right P1 P2 _ (hnn _),
    ptAt_append_right P1 P2 _ (hnn _),
    tagAt_append_right T1 T2 P1.length hT _ (hnn _),
    tagAt_append_right T1 T2 P1.length hT _ (hnn _),
    tagAt_append_right T1 T2 P1.length hT _ (hnn _)]

/-- The outer loop splits over an append of contour lists, the second
part starting from the threaded `contour_starti`. -/
theorem do_outline_contours_append (points : List FTVector)
    (tags : List Nat) (ox oy : ℚ) (gen : Bool) (A : List Int) :
    ∀ (B : List Int) (s : Int),
    do_outline_contours points tags ox oy gen (A ++ B) s =
      do_outline_contours points tags ox oy gen A s ++
        do_outline_contours points tags ox oy gen B (contoursEnd s A) := by
  induction A with
  | nil =>
    intro B s
    rfl
  | cons endi rest ih =>
    intro B s
    simp only [List.cons_append, do_outline_contours, contoursEnd,
      List.foldl_cons]
    rw [show rest.append B = rest ++ B from rfl, ih]
    simp [contoursEnd]

/-- `contoursEnd` is one past the last contour end index. -/
theorem contoursEnd_eq_getLast (e : Int) (A : List Int) :
    ∀ s : Int, A.getLast? = some e → contoursEnd s A = e + 1 := by
  induction A with
  | nil =>
    intro s h
    simp at h
  | cons a rest ih =>
    intro s h
    rcases rest with _ | ⟨b, rest'⟩
    · simp at h
      subst h
      rfl
    · rw [List.getLast?_cons_cons] at h
      exact ih (a + 1) h

/-- The outer loop over contours lying inside the first outline is
unaffected by appending a second outline, provided the end indices are
increasing, bounded by the first point count, and at or after the running
start index. -/
theorem do_outline_contours_append_left_eq (P1 P2 : List FTVector)
    (T1 T2 : List Nat) (hT : T1.length = P1.length) (ox oy : ℚ)
    (gen : Bool) (A : List Int) :
    ∀ s : Int, 0 ≤ s → (∀ e ∈ A, s ≤ e) → List.Pairwise (· < ·) A →
    (∀ e ∈ A, e < (P1.length : Int)) →
    do_outline_contours (P1 ++ P2) (T1 ++ T2) ox oy gen A s =
      do_outline_contours P1 T1 ox oy gen A s := by
  induction A with
  | nil =>
    intro s _ _ _ _
    rfl
  | cons endi rest ih =>
    intro s hs0 hse hpw hlt
    have hsend : s ≤ endi := hse endi (List.mem_cons_self _ _)
    have hendlt : endi < (P1.length : Int) :=
      hlt endi (List.mem_cons_self _ _)
    simp only [do_outline_contours]
    rw [ptAt_append_left P1 P2 s hs0 (by omega),
      do_outline_contour_append_left P1 P2 T1 T2 hT s (endi - s + 1)
        ox oy gen hs0 (by omega),
      ih (endi + 1) (by omega)
        (fun e he => by
          have := List.rel_of_pairwise_cons hpw he
          omega)
        hpw.of_cons
        (fun e he => hlt e (List.mem_cons_of_mem _ he))]

/-- The outer loop over contours shifted by the first outline's point
count reads exactly the second outline. -/
theorem do_outline_contours_append_right_eq (P1 P2 : List FTVector)
    (T1 T2 : List Nat) (hT : T1.length = P1.length) (ox oy : ℚ)
    (gen : Bool) (A : List Int) :
    ∀ s s' : Int, s' = s + (P1.length : Int) → 0 ≤ s →
    (∀ e ∈ A, 0 ≤ e) →
    do_outline_contours (P1 ++ P2) (T1 ++ T2) ox oy gen
        (A.map (fun e => e + (P1.length : Int))) s' =
      do_outline_contours P2 T2 ox oy gen A s := by
  induction A with
  | nil =>
    intro s s' _ _ _
    rfl
  | cons endi rest ih =>
    intro s s' hs' hs0 hnn
    subst hs'
    simp only [List.map_cons, do_outline_contours]
    rw [ptAt_append_right P1 P2 s hs0,
      show endi + (P1.length : Int) - (s + (P1.length : Int)) + 1 =
        endi - s + 1 from by ring,
      do_outline_contour_append_right P1 P2 T1 T2 hT s (endi - s + 1)
        ox oy gen hs0,
      ih (endi + 1) (endi + (P1.length : Int) + 1)
        (by ring)
        (by have := hnn endi (List.mem_cons_self _ _); omega)
        (fun e he => hnn e (List.mem_cons_of_mem _ he))]

/-- C9: converting the concatenation of two well-formed outlines (second
contour end indices shifted by the first point count) yields exactly the
concatenation of the two separately converted paths. -/
theorem c9_contour_concatenation (P1 : List FTVector) (T1 : List Nat)
    (C1 : List Int) (P2 : List FTVector) (T2 : List Nat) (C2 : List Int)
    (ox oy : ℚ) (gen : Bool)
    (wf1 : wfOutline P1 T1 C1) (wf2 : wfOutline P2 T2 C2) :
    do_outline (P1 ++ P2) (T1 ++ T2)
        (C1 ++ C2.map (fun e => e + (P1.length : Int))) ox oy gen =
      SvgResult.path ((do_outline P1 T1 C1 ox oy gen).cmds ++
        (do_outline P2 T2 C2 ox oy gen).cmds) := by
  obtain ⟨hP1, hT1, hC1, hch1, hbd1, hlast1⟩ := wf1
  obtain ⟨hP2, hT2, hC2, hch2, hbd2, hlast2⟩ := wf2
  have hP1len : P1.length ≠ 0 := fun h => hP1 (List.length_eq_zero.mp h)
  have hP2len : P2.length ≠ 0 := fun h => hP2 (List.length_eq_zero.mp h)
  have hC1len : C1.length ≠ 0 := fun h => hC1 (List.length_eq_zero.mp h)
  have hC2len : C2.length ≠ 0 := fun h => hC2 (List.length_eq_zero.mp h)
  have hr1 : do_outline P1 T1 C1 ox oy gen =
      SvgResult.path (do_outline_contours P1 T1 ox oy gen C1 0) := by
    rw [do_outline, if_neg hP1len, if_neg hC1len]
  have hr2 : do_outline P2 T2 C2 ox oy gen =
      SvgResult.path (do_outline_contours P2 T2 ox oy gen C2 0) := by
    rw [do_outline, if_neg hP2len, if_neg hC2len]
  have hPlen : (P1 ++ P2).length ≠ 0 := by
    rw [List.length_append]
    omega
  have hClen : (C1 ++ C2.map (fun e => e + (P1.length : Int))).length ≠ 0 := by
    rw [List.length_append]
    omega
  rw [do_outline, if_neg hPlen, if_neg hClen,
    do_outline_contours_append (P1 ++ P2) (T1 ++ T2) ox oy gen C1 _ 0]
  have hend : contoursEnd 0 C1 = (P1.length : Int) := by
    rw [contoursEnd_eq_getLast _ C1 0 hlast1]
    ring
  rw [hend,
    do_outline_contours_append_left_eq P1 P2 T1 T2 hT1 ox oy gen C1 0
      le_rfl (fun e he => (hbd1 e he).1)
      (List.chain'_iff_pairwise.mp hch1) (fun e he => (hbd1 e he).2),
    do_outline_contours_append_right_eq P1 P2 T1 T2 hT1 ox oy gen C2 0
      (P1.length : Int) (by ring) le_rfl (fun e he => (hbd2 e he).1),
    hr1, hr2]
  rfl

/-- Witness for C9 at two concrete single-point outlines. -/
theorem c9_contour_concatenation_witness :
    do_outline ([(⟨0, 0⟩ : FTVector)] ++ [(⟨1, 2⟩ : FTVector)])
        ([1] ++ [1])
        ([0] ++ [0].map (fun e =>
          e + (([(⟨0, 0⟩ : FTVector)].length : Nat) : Int))) 0 0 true =
      SvgResult.path
        ((do_outline [(⟨0, 0⟩ : FTVector)] [1] [0] 0 0 true).cmds ++
          (do_outline [(⟨1, 2⟩ : FTVector)] [1] [0] 0 0 true).cmds) :=
  c9_contour_concatenation [⟨0, 0⟩] [1] [0] [⟨1, 2⟩] [1] [0] 0 0 true
    ⟨by decide, by decide, by decide, by simp, by decide, by decide⟩
    ⟨by decide, by decide, by decide, by simp, by decide, by decide⟩

/-- Supporting fact for the tessellator: over the exact-rational model
the default increment `0.1` yields exactly ten samples (the compiled
code's IEEE-754 accumulation instead lets an eleventh iteration run,
since ten binary64 additions of `0.1` sum to just below `1.0`; that
divergence is outside this exact model). -/
theorem fullQuadraticBezier_default_length (p0 p1 p2 : Point2D) :
    (fullQuadraticBezier p0 p1 p2 (1/10)).length = 10 := by
  rw [fullQuadraticBezier, if_pos (by norm_num), List.length_map,
    List.length_range]
  norm_num [Rat.ceil, Rat.den_ofNat, Rat.num_ofNat,
    show Int.toNat 10 = 10 from rfl]

end FontToSvg
